import Mathlib

/- Shallow embedding of src/lidar2depth.cpp (arpg/lidar2depth).

Floating-point values are idealised as exact arithmetic: point coordinates,
camera intrinsics and continuous pixel coordinates are rationals, and the
sqrt call of depthFromVec is modelled with Real.sqrt.  C-style casts
(int)/(ushort) of a floating value truncate toward zero and are undefined
(modelled as none) when the truncated value is not representable in the
target type; an out-of-range index pair given to cv::Mat::at is undefined
behaviour, modelled as none for the whole frame.

Lines 94-150 of cloud_callback are commented out in the source file; the
definitions below embed both the code that actually executes
(cloud_callback) and the disabled pipeline exactly as written in the
comment block (cloud_callback_restored). -/

namespace Lidar2Depth

/- Truncation toward zero: the conversion of a floating value to a C
integer type discards the fractional part (C11 6.3.1.4). -/
def truncC {α : Type} [LinearOrderedField α] [FloorRing α] (q : α) : ℤ :=
  if 0 ≤ q then ⌊q⌋ else ⌈q⌉

/- The C cast `(ushort)v` of a floating value (source line 53): truncate
toward zero, undefined (none) when the result does not fit in 16 bits. -/
def ushortCast {α : Type} [LinearOrderedField α] [FloorRing α] (q : α) : Option ℕ :=
  if 0 ≤ truncC q ∧ truncC q ≤ 65535 then some (truncC q).toNat else none

/- The C cast `(int)v` of a floating value (source line 142): truncate
toward zero, undefined (none) when the result does not fit in 32 bits. -/
def intCast32 {α : Type} [LinearOrderedField α] [FloorRing α] (q : α) : Option ℤ :=
  if -2147483648 ≤ truncC q ∧ truncC q ≤ 2147483647 then some (truncC q) else none

/- A 3D point (pcl::PointXYZ / cv::Point3d), coordinates idealised as ℚ. -/
structure Point3 where
  x : ℚ
  y : ℚ
  z : ℚ
deriving DecidableEq

/- Source lines 51-55:
    ushort depthFromVec(cv::Point3d xyz){
        float mag = sqrt(xyz.x*xyz.x + xyz.y*xyz.y + xyz.z*xyz.z);
        ushort pixel_val = (ushort)(mag*256.0);
        return pixel_val;
    } -/
noncomputable def depthFromVec (v : Point3) : Option ℕ :=
  ushortCast (Real.sqrt ((v.x : ℝ) * (v.x : ℝ) + (v.y : ℝ) * (v.y : ℝ) + (v.z : ℝ) * (v.z : ℝ)) * 256)

/- The encoding step of depthFromVec applied to an already-computed metric
depth d: the `(ushort)(d*256.0)` conversion of source line 53. -/
def encode (d : ℚ) : Option ℕ := ushortCast (d * 256)

/- Decoder from the KITTI convention quoted at source lines 35-44:
`disp(u,v) = ((float)I(u,v))/256.0` with 0 meaning invalid. -/
def decode (v : ℕ) : ℚ := if v = 0 then 0 else (v : ℚ) / 256

/- Modelled from the spec: the Depth Encoder the specification describes,
`round(d*256)` saturated to [0, 65535] with encode(0) clamped to 1
(spec section 4.5).  Used only to compare the spec's encoder with the
code's encoder. -/
def encodeSpec (d : ℚ) : ℕ := if d = 0 then 1 else min 65535 (round (d * 256)).toNat

/- Modelled from the spec: round-half-away-from-zero, the pixel rounding
rule the specification mandates (spec section 4.3).  Used only to compare
the spec's rounding with the code's `(int)` truncation. -/
def roundHalfAway (q : ℚ) : ℤ := if 0 ≤ q then ⌊q + 1/2⌋ else ⌈q - 1/2⌉

/- sensor_msgs::CameraInfo: image size plus the K (3x3, row major) and
P (3x4, row major) intrinsic matrices. -/
structure CameraInfoMsg where
  width : ℕ
  height : ℕ
  k : Fin 9 → ℚ
  p : Fin 12 → ℚ

/- image_geometry::PinholeCameraModel state relevant to projection. -/
structure PinholeModel where
  fx : ℚ
  fy : ℚ
  cx : ℚ
  cy : ℚ
  tx : ℚ
  ty : ℚ
  width : ℕ
  height : ℕ

/- image_geometry::PinholeCameraModel::fromCameraInfo (source line 92):
the projection accessors fx, fy, cx, cy, Tx, Ty read the P matrix. -/
def fromCameraInfo (msg : CameraInfoMsg) : PinholeModel :=
  ⟨msg.p 0, msg.p 5, msg.p 2, msg.p 6, msg.p 3, msg.p 7, msg.width, msg.height⟩

/- image_geometry::PinholeCameraModel::project3dToPixel (source line 141):
uv.x = (fx*x + Tx)/z + cx, uv.y = (fy*y + Ty)/z + cy. -/
def project3dToPixel (cam : PinholeModel) (v : Point3) : ℚ × ℚ :=
  ((cam.fx * v.x + cam.tx) / v.z + cam.cx, (cam.fy * v.y + cam.ty) / v.z + cam.cy)

/- cv::Mat with CV_16UC1 elements: a rows x cols grid of 16-bit values,
represented by its dimensions and the cell contents. -/
structure Mat where
  rows : ℕ
  cols : ℕ
  cell : ℤ → ℤ → ℕ

/- cv::Mat::zeros(rows, cols, CV_16UC1) (source line 135). -/
def Mat.zeros (r c : ℕ) : Mat := ⟨r, c, fun _ _ => 0⟩

/- Assignment through cv::Mat::at<ushort>(r, c): first index is the row,
second the column. -/
def Mat.set (m : Mat) (r c : ℤ) (v : ℕ) : Mat :=
  ⟨m.rows, m.cols, fun i j => if i = r ∧ j = c then v else m.cell i j⟩

/- Index pair validity for cv::Mat::at: at(r, c) is defined only for
0 ≤ r < rows and 0 ≤ c < cols. -/
def Mat.inBounds (m : Mat) (r c : ℤ) : Prop :=
  0 ≤ r ∧ r < (m.rows : ℤ) ∧ 0 ≤ c ∧ c < (m.cols : ℤ)

instance (m : Mat) (r c : ℤ) : Decidable (m.inBounds r c) := by
  unfold Mat.inBounds
  infer_instance

/- The per-point computations of the loop body at source lines 136-142,
before the Mat write: the projected pixel coordinates after the (int)
casts together with the depthFromVec value.  `uv.x` (the horizontal image
coordinate) is the FIRST component, `uv.y` the second, exactly as the
source passes them to at<ushort>.  A point with z = 0 makes the float
division non-finite and the subsequent (int) cast undefined (none). -/
noncomputable def target (cam : PinholeModel) (v : Point3) : Option (ℤ × ℤ × ℕ) :=
  if v.z = 0 then none
  else
    match intCast32 (project3dToPixel cam v).1, intCast32 (project3dToPixel cam v).2,
        depthFromVec v with
    | some r, some c, some d => some (r, c, d)
    | _, _, _ => none

/- One iteration of the loop at source lines 136-143:
`image.at<ushort>((int)uv.x, (int)uv.y) = depthFromVec(xyz);`
The write is unconditional (no comparison with the stored value) and
unchecked (an out-of-range index is undefined behaviour: none). -/
noncomputable def writePoint (cam : PinholeModel) (img : Mat) (v : Point3) : Option Mat :=
  match target cam v with
  | some (r, c, d) => if img.inBounds r c then some (img.set r c d) else none
  | none => none

/- The whole loop at source lines 136-143 over the filtered cloud. -/
noncomputable def accumulate (cam : PinholeModel) : Mat → List Point3 → Option Mat
  | img, [] => some img
  | img, v :: l =>
    match writePoint cam img v with
    | some img2 => accumulate cam img2 l
    | none => none

/- pcl::PassThrough with setFilterFieldName/setFilterLimits: keeps the
points whose field value lies in the closed interval [lo, hi]. -/
def passThrough (field : Point3 → ℚ) (lo hi : ℚ) (cloud : List Point3) : List Point3 :=
  cloud.filter fun v => decide (lo ≤ field v ∧ field v ≤ hi)

/- Source lines 117-128: filter on field "x" with limits [0, 6], then on
field "y" with the limits left at [0, 6] (they are not set again). -/
def rangeGate (cloud : List Point3) : List Point3 :=
  passThrough Point3.y 0 6 (passThrough Point3.x 0 6 cloud)

/- Modelled from the spec: the Range Gate of spec section 4.2 with the
code's configured box, as a single simultaneous predicate that also
excludes every point with non-positive forward-axis (z) value. -/
def gateSpec (cloud : List Point3) : List Point3 :=
  cloud.filter fun v => decide ((0 ≤ v.x ∧ v.x ≤ 6) ∧ (0 ≤ v.y ∧ v.y ≤ 6) ∧ 0 < v.z)

/- The simultaneous x/y box predicate actually realised by the two chained
PassThrough calls (no constraint on z). -/
def xyBoxFilter (cloud : List Point3) : List Point3 :=
  cloud.filter fun v => decide ((0 ≤ v.x ∧ v.x ≤ 6) ∧ (0 ≤ v.y ∧ v.y ≤ 6))

/- geometry_msgs::TransformStamped payload: a rigid transform given by a
3x3 rotation matrix (row major) and a translation vector. -/
structure RigidTransform where
  r11 : ℚ
  r12 : ℚ
  r13 : ℚ
  r21 : ℚ
  r22 : ℚ
  r23 : ℚ
  r31 : ℚ
  r32 : ℚ
  r33 : ℚ
  t1 : ℚ
  t2 : ℚ
  t3 : ℚ

/- tf2::doTransform on one point: rotation times point plus translation. -/
def applyTransform (T : RigidTransform) (v : Point3) : Point3 :=
  ⟨T.r11 * v.x + T.r12 * v.y + T.r13 * v.z + T.t1,
   T.r21 * v.x + T.r22 * v.y + T.r23 * v.z + T.t2,
   T.r31 * v.x + T.r32 * v.y + T.r33 * v.z + T.t3⟩

/- tf2::doTransform on a whole cloud (source line 103). -/
def transformCloud (T : RigidTransform) (cloud : List Point3) : List Point3 :=
  cloud.map (applyTransform T)

/- Outcome of tf_buffer_.lookupTransform (source lines 99-102): either a
transform or a thrown tf2::TransformException. -/
inductive TfLookup where
  | ok (T : RigidTransform)
  | exn

/- The disabled pipeline of cloud_callback as written in the comment block
at source lines 94-150: look up the transform (a TransformException is
caught, warned about and the callback returns without publishing),
transform the cloud, run the two PassThrough filters, build a 600x800
zero image, run the projection loop, and publish the image.  The result
is the list of published images, or none when the loop hits undefined
behaviour. -/
noncomputable def cloud_callback_restored (tf : TfLookup) (cloud : List Point3)
    (cam : PinholeModel) : Option (List Mat) :=
  match tf with
  | TfLookup.exn => some []
  | TfLookup.ok T =>
    match accumulate cam (Mat.zeros 600 800) (rangeGate (transformCloud T cloud)) with
    | some img => some [img]
    | none => none

/- sensor_msgs::PointCloud2 fields used by the executed code. -/
structure CloudMsg where
  width : ℕ
  height : ℕ
  points : List Point3

/- The object state of the Lidar2Depth node that the callback could
observably mutate: the stream of messages published on depth_image. -/
structure NodeState where
  published : List Mat

/- The code of cloud_callback that actually executes (source lines 84-151,
everything from line 94 on being commented out): print the two dimension
lines, construct a PinholeCameraModel from the CameraInfo, and return.
Result: (object state after the call, lines printed, model constructed). -/
def cloud_callback (st : NodeState) (cloud_msg : CloudMsg) (cam_info : CameraInfoMsg) :
    NodeState × List String × PinholeModel :=
  (st,
   ["Cloud: width = " ++ toString cloud_msg.width ++ ", height = " ++
      toString cloud_msg.height ++ "\n",
    "Camera: width = " ++ toString cam_info.width ++ ", height = " ++
      toString cam_info.height ++ "\n"],
   fromCameraInfo cam_info)

/- Cell read of an optional image, for stating concrete outcomes. -/
def cellAt (o : Option Mat) (i j : ℤ) : Option ℕ :=
  match o with
  | some m => some (m.cell i j)
  | none => none

/- Cell read of the first published image of a callback outcome. -/
def firstCell (o : Option (List Mat)) (i j : ℤ) : Option ℕ :=
  match o with
  | some (m :: _) => some (m.cell i j)
  | _ => none

/- Concrete camera models and transform used as test inputs. -/
def camC : PinholeModel := ⟨1, 1, 0, 0, 0, 0, 800, 600⟩

def camD : PinholeModel := ⟨1, 1, 0, 1000, 0, 0, 800, 600⟩

def camE : PinholeModel := ⟨1, 1, 10, 10, 0, 0, 800, 600⟩

def camF : PinholeModel := ⟨1, 1, 0, 0, 0, 0, 100, 50⟩

def camZero : PinholeModel := ⟨0, 0, 0, 0, 0, 0, 0, 0⟩

def idT : RigidTransform := ⟨1, 0, 0, 0, 1, 0, 0, 0, 1, 0, 0, 0⟩

/- Helper lemmas. -/

theorem truncC_ratCast (q : ℚ) : truncC ((q : ℝ)) = truncC q := by
  simp [truncC, Rat.floor_cast, Rat.ceil_cast, Rat.cast_nonneg]

theorem ushortCast_ratCast (q : ℚ) : ushortCast ((q : ℝ)) = ushortCast q := by
  simp [ushortCast, truncC_ratCast]

theorem depthFromVec_eq (v : Point3) (m : ℚ) (hm : 0 ≤ m)
    (h : m * m = v.x * v.x + v.y * v.y + v.z * v.z) :
    depthFromVec v = encode m := by
  have hc : ((v.x : ℝ) * (v.x : ℝ) + (v.y : ℝ) * (v.y : ℝ) + (v.z : ℝ) * (v.z : ℝ))
      = ((m : ℝ)) ^ 2 := by
    have h2 : ((m * m : ℚ) : ℝ) = ((v.x * v.x + v.y * v.y + v.z * v.z : ℚ) : ℝ) := by
      exact_mod_cast congrArg (fun t : ℚ => (t : ℝ)) h
    push_cast at h2
    rw [sq]
    linarith
  have hm' : (0 : ℝ) ≤ (m : ℝ) := by exact_mod_cast hm
  rw [depthFromVec, hc, Real.sqrt_sq hm']
  have : ((m : ℝ)) * 256 = ((m * 256 : ℚ) : ℝ) := by push_cast; ring
  rw [this, ushortCast_ratCast]
  rfl

theorem Mat.set_rows (m : Mat) (r c : ℤ) (v : ℕ) : (m.set r c v).rows = m.rows := rfl

theorem Mat.set_cols (m : Mat) (r c : ℤ) (v : ℕ) : (m.set r c v).cols = m.cols := rfl

theorem Mat.cell_set_same (m : Mat) (r c : ℤ) (v : ℕ) : (m.set r c v).cell r c = v := by
  simp [Mat.set]

theorem Mat.cell_set_other (m : Mat) (r c i j : ℤ) (v : ℕ) (h : ¬(i = r ∧ j = c)) :
    (m.set r c v).cell i j = m.cell i j := by
  simp [Mat.set, h]

theorem writePoint_some {cam : PinholeModel} {img img2 : Mat} {v : Point3}
    (h : writePoint cam img v = some img2) :
    ∃ r c d, target cam v = some (r, c, d) ∧ img.inBounds r c ∧ img2 = img.set r c d := by
  unfold writePoint at h
  cases ht : target cam v with
  | none => rw [ht] at h; exact absurd h (by simp)
  | some rcd =>
    obtain ⟨r, c, d⟩ := rcd
    rw [ht] at h
    by_cases hb : img.inBounds r c
    · refine ⟨r, c, d, rfl, hb, ?_⟩
      simp [hb] at h
      exact h.symm
    · simp [hb] at h

theorem accumulate_dims {cam : PinholeModel} {img0 img : Mat} {l : List Point3}
    (h : accumulate cam img0 l = some img) : img.rows = img0.rows ∧ img.cols = img0.cols := by
  induction l generalizing img0 with
  | nil =>
    unfold accumulate at h
    cases h
    exact ⟨rfl, rfl⟩
  | cons a l ih =>
    unfold accumulate at h
    cases hw : writePoint cam img0 a with
    | none => rw [hw] at h; exact absurd h (by simp)
    | some img1 =>
      rw [hw] at h
      obtain ⟨r, c, d, _, _, rfl⟩ := writePoint_some hw
      have := ih h
      simpa [Mat.set_rows, Mat.set_cols] using this

theorem accumulate_untouched {cam : PinholeModel} {img0 img : Mat} {l : List Point3}
    {i j : ℤ}
    (h : accumulate cam img0 l = some img)
    (hno : ∀ q ∈ l, ∀ r c d, target cam q = some (r, c, d) → ¬(r = i ∧ c = j)) :
    img.cell i j = img0.cell i j := by
  induction l generalizing img0 with
  | nil =>
    unfold accumulate at h
    cases h
    rfl
  | cons a l ih =>
    unfold accumulate at h
    cases hw : writePoint cam img0 a with
    | none => rw [hw] at h; exact absurd h (by simp)
    | some img1 =>
      rw [hw] at h
      obtain ⟨r, c, d, ht, _, rfl⟩ := writePoint_some hw
      have hstep : (img0.set r c d).cell i j = img0.cell i j := by
        apply Mat.cell_set_other
        intro hc
        exact hno a (List.mem_cons_self a l) r c d ht ⟨hc.1.symm ▸ rfl, hc.2.symm ▸ rfl⟩
      rw [ih h fun q hq => hno q (List.mem_cons_of_mem a hq), hstep]

theorem accumulate_cons (cam : PinholeModel) (img : Mat) (v : Point3) (l : List Point3) :
    accumulate cam img (v :: l) =
      match writePoint cam img v with
      | some img2 => accumulate cam img2 l
      | none => none := rfl

theorem accumulate_append {cam : PinholeModel} {img0 : Mat} {l1 l2 : List Point3} :
    accumulate cam img0 (l1 ++ l2) =
      match accumulate cam img0 l1 with
      | some img1 => accumulate cam img1 l2
      | none => none := by
  induction l1 generalizing img0 with
  | nil => simp [accumulate]
  | cons a l ih =>
    rw [List.cons_append, accumulate_cons, accumulate_cons]
    cases hw : writePoint cam img0 a with
    | none => rfl
    | some img1 => exact ih

/- Concrete evaluations used by the claim theorems below. -/

theorem depth_001 : depthFromVec ⟨0, 0, 1⟩ = some 256 := by
  rw [depthFromVec_eq ⟨0, 0, 1⟩ 1 (by norm_num) (by norm_num)]
  norm_num [encode, ushortCast, truncC]
  decide

theorem depth_002 : depthFromVec ⟨0, 0, 2⟩ = some 512 := by
  rw [depthFromVec_eq ⟨0, 0, 2⟩ 2 (by norm_num) (by norm_num)]
  norm_num [encode, ushortCast, truncC]
  decide

theorem depth_3_4_12 : depthFromVec ⟨3, 4, 12⟩ = some 3328 := by
  rw [depthFromVec_eq ⟨3, 4, 12⟩ 13 (by norm_num) (by norm_num)]
  norm_num [encode, ushortCast, truncC]
  decide

theorem depth_7_26_2 : depthFromVec ⟨7, 26, 2⟩ = some 6912 := by
  rw [depthFromVec_eq ⟨7, 26, 2⟩ 27 (by norm_num) (by norm_num)]
  norm_num [encode, ushortCast, truncC]
  decide

theorem depth_2_1_m2 : depthFromVec ⟨2, 1, -2⟩ = some 768 := by
  rw [depthFromVec_eq ⟨2, 1, -2⟩ 3 (by norm_num) (by norm_num)]
  norm_num [encode, ushortCast, truncC]
  decide

theorem tgt_C_001 : target camC ⟨0, 0, 1⟩ = some (0, 0, 256) := by
  have h1 : project3dToPixel camC ⟨0, 0, 1⟩ = (0, 0) := by
    norm_num [project3dToPixel, camC]
  unfold target
  rw [h1, depth_001]
  norm_num [intCast32, truncC]

theorem tgt_C_002 : target camC ⟨0, 0, 2⟩ = some (0, 0, 512) := by
  have h1 : project3dToPixel camC ⟨0, 0, 2⟩ = (0, 0) := by
    norm_num [project3dToPixel, camC]
  unfold target
  rw [h1, depth_002]
  norm_num [intCast32, truncC]

theorem tgt_C_7_26_2 : target camC ⟨7, 26, 2⟩ = some (3, 13, 6912) := by
  have h1 : project3dToPixel camC ⟨7, 26, 2⟩ = (7/2, 13) := by
    norm_num [project3dToPixel, camC]
  unfold target
  rw [h1, depth_7_26_2]
  norm_num [intCast32, truncC]

theorem tgt_D_001 : target camD ⟨0, 0, 1⟩ = some (0, 1000, 256) := by
  have h1 : project3dToPixel camD ⟨0, 0, 1⟩ = (0, 1000) := by
    norm_num [project3dToPixel, camD]
  unfold target
  rw [h1, depth_001]
  norm_num [intCast32, truncC]

theorem tgt_E_2_1_m2 : target camE ⟨2, 1, -2⟩ = some (9, 9, 768) := by
  have h1 : project3dToPixel camE ⟨2, 1, -2⟩ = (9, 19/2) := by
    norm_num [project3dToPixel, camE]
  unfold target
  rw [h1, depth_2_1_m2]
  norm_num [intCast32, truncC]

theorem write_C_001 : writePoint camC (Mat.zeros 600 800) ⟨0, 0, 1⟩ =
    some ((Mat.zeros 600 800).set 0 0 256) := by
  unfold writePoint
  rw [tgt_C_001]
  norm_num [Mat.inBounds, Mat.zeros]

theorem write_C_002 : writePoint camC ((Mat.zeros 600 800).set 0 0 256) ⟨0, 0, 2⟩ =
    some (((Mat.zeros 600 800).set 0 0 256).set 0 0 512) := by
  unfold writePoint
  rw [tgt_C_002]
  norm_num [Mat.inBounds, Mat.set, Mat.zeros]

theorem write_C_7_26_2 : writePoint camC (Mat.zeros 600 800) ⟨7, 26, 2⟩ =
    some ((Mat.zeros 600 800).set 3 13 6912) := by
  unfold writePoint
  rw [tgt_C_7_26_2]
  norm_num [Mat.inBounds, Mat.zeros]

theorem write_D_001 : writePoint camD (Mat.zeros 600 800) ⟨0, 0, 1⟩ = none := by
  unfold writePoint
  rw [tgt_D_001]
  norm_num [Mat.inBounds, Mat.zeros]

theorem write_E_2_1_m2 : writePoint camE (Mat.zeros 600 800) ⟨2, 1, -2⟩ =
    some ((Mat.zeros 600 800).set 9 9 768) := by
  unfold writePoint
  rw [tgt_E_2_1_m2]
  norm_num [Mat.inBounds, Mat.zeros]

theorem acc_C_12 : accumulate camC (Mat.zeros 600 800) [⟨0, 0, 1⟩, ⟨0, 0, 2⟩] =
    some (((Mat.zeros 600 800).set 0 0 256).set 0 0 512) := by
  rw [accumulate_cons, write_C_001]
  rw [show (match some ((Mat.zeros 600 800).set 0 0 256) with
      | some img2 => accumulate camC img2 [⟨0, 0, 2⟩]
      | none => none) = accumulate camC ((Mat.zeros 600 800).set 0 0 256) [⟨0, 0, 2⟩] from rfl]
  rw [accumulate_cons, write_C_002]
  rfl

theorem acc_C_1 : accumulate camC (Mat.zeros 600 800) [⟨0, 0, 1⟩] =
    some ((Mat.zeros 600 800).set 0 0 256) := by
  rw [accumulate_cons, write_C_001]
  rfl

theorem acc_E : accumulate camE (Mat.zeros 600 800) [⟨2, 1, -2⟩] =
    some ((Mat.zeros 600 800).set 9 9 768) := by
  rw [accumulate_cons, write_E_2_1_m2]
  rfl

theorem encode_some (d : ℚ) (h0 : 0 ≤ d) (h1 : d * 256 < 65536) :
    encode d = some (⌊d * 256⌋).toNat := by
  have hnn : (0 : ℚ) ≤ d * 256 := by positivity
  have ht : truncC (d * 256) = ⌊d * 256⌋ := if_pos hnn
  have hfl : ⌊d * 256⌋ < 65536 := Int.floor_lt.mpr (by exact_mod_cast h1)
  unfold encode ushortCast
  rw [ht, if_pos ⟨Int.floor_nonneg.mpr hnn, by omega⟩]

theorem apply_idT (v : Point3) : applyTransform idT v = v := by
  obtain ⟨x, y, z⟩ := v
  simp [applyTransform, idT]

theorem transform_idT (cloud : List Point3) : transformCloud idT cloud = cloud := by
  unfold transformCloud
  have h : applyTransform idT = id := funext fun v => apply_idT v
  rw [h, List.map_id]

theorem gate_keep_2_1_m2 : rangeGate [⟨2, 1, -2⟩] = [⟨2, 1, -2⟩] := by
  norm_num [rangeGate, passThrough, List.filter_cons]

theorem gate_keep_0_1_m5 : rangeGate [⟨0, 1, -5⟩] = [⟨0, 1, -5⟩] := by
  norm_num [rangeGate, passThrough, List.filter_cons]

theorem gateSpec_drop_0_1_m5 : gateSpec [⟨0, 1, -5⟩] = [] := by
  norm_num [gateSpec, List.filter_cons]

theorem rc_E : cloud_callback_restored (TfLookup.ok idT) [⟨2, 1, -2⟩] camE =
    some [(Mat.zeros 600 800).set 9 9 768] := by
  show (match accumulate camE (Mat.zeros 600 800)
      (rangeGate (transformCloud idT [⟨2, 1, -2⟩])) with
    | some img => some [img]
    | none => none) = some [(Mat.zeros 600 800).set 9 9 768]
  rw [transform_idT, gate_keep_2_1_m2, acc_E]

theorem rc_nil (cam : PinholeModel) :
    cloud_callback_restored (TfLookup.ok idT) [] cam = some [Mat.zeros 600 800] := by
  show (match accumulate cam (Mat.zeros 600 800)
      (rangeGate (transformCloud idT [])) with
    | some img => some [img]
    | none => none) = some [Mat.zeros 600 800]
  rw [transform_idT]
  rfl

/- Claim theorems. -/

/-- C1 counterexample: at the camera-frame point (3, 4, 12) with z = 12 > 0,
depthFromVec encodes the Euclidean magnitude 13 (pixel value 3328), not the
forward-axis distance 12 (pixel value 3072), refuting the claim that the
encoded depth is the z distance. -/
theorem C1_cex : depthFromVec ⟨3, 4, 12⟩ = some 3328 ∧
    encode (Point3.mk 3 4 12).z = some 3072 ∧ (3328 : ℕ) ≠ 3072 := by
  refine ⟨depth_3_4_12, ?_, by decide⟩
  show encode 12 = some 3072
  norm_num [encode, ushortCast, truncC]
  decide

/-- C1 (amended): the value depthFromVec encodes is the Euclidean magnitude
of the vector, scaled by 256 and truncated; since the magnitude dominates
the forward-axis distance, the encoded value is always at least the
z-distance encoding (and exceeds it for off-axis points). -/
theorem C1_encodes_magnitude (v : Point3) (hz : 0 < v.z) (n : ℕ)
    (h : depthFromVec v = some n) : (truncC (v.z * 256)).toNat ≤ n := by
  unfold depthFromVec ushortCast at h
  split at h
  case isFalse => exact absurd h (by simp)
  case isTrue hcond =>
    injection h with h
    subst h
    apply Int.toNat_le_toNat
    have hzR : (0 : ℝ) ≤ (v.z : ℝ) := by exact_mod_cast le_of_lt hz
    have hsq : ((v.z : ℝ)) ^ 2 ≤
        (v.x : ℝ) * (v.x : ℝ) + (v.y : ℝ) * (v.y : ℝ) + (v.z : ℝ) * (v.z : ℝ) := by
      nlinarith [mul_self_nonneg ((v.x : ℝ)), mul_self_nonneg ((v.y : ℝ))]
    have hle : (v.z : ℝ) ≤
        Real.sqrt ((v.x : ℝ) * (v.x : ℝ) + (v.y : ℝ) * (v.y : ℝ) + (v.z : ℝ) * (v.z : ℝ)) := by
      calc (v.z : ℝ) = Real.sqrt (((v.z : ℝ)) ^ 2) := (Real.sqrt_sq hzR).symm
        _ ≤ _ := Real.sqrt_le_sqrt hsq
    have h256 : ((v.z * 256 : ℚ) : ℝ) ≤
        Real.sqrt ((v.x : ℝ) * (v.x : ℝ) + (v.y : ℝ) * (v.y : ℝ) + (v.z : ℝ) * (v.z : ℝ)) * 256 := by
      push_cast
      nlinarith [hle]
    have ha : (0 : ℝ) ≤ ((v.z * 256 : ℚ) : ℝ) := by
      push_cast
      nlinarith [hzR]
    have hb : (0 : ℝ) ≤
        Real.sqrt ((v.x : ℝ) * (v.x : ℝ) + (v.y : ℝ) * (v.y : ℝ) + (v.z : ℝ) * (v.z : ℝ)) * 256 := by
      positivity
    rw [← truncC_ratCast (v.z * 256)]
    unfold truncC
    rw [if_pos ha, if_pos hb]
    exact Int.floor_le_floor h256

/-- C1 witness: the amended theorem applied at the point (3, 4, 12). -/
theorem C1_witness : 0 < (Point3.mk 3 4 12).z ∧
    (truncC ((Point3.mk 3 4 12).z * 256)).toNat ≤ 3328 :=
  ⟨by norm_num, C1_encodes_magnitude ⟨3, 4, 12⟩ (by norm_num) 3328 depth_3_4_12⟩

/-- C2 counterexample: two points on the optical axis at depths 1 then 2
both land on pixel (0, 0); the final cell holds the later (farther)
candidate's value 512, not the encoded minimum 256, refuting the
nearest-wins/strict-smaller overwrite claim. -/
theorem C2_cex :
    cellAt (accumulate camC (Mat.zeros 600 800) [⟨0, 0, 1⟩, ⟨0, 0, 2⟩]) 0 0 = some 512 ∧
    encode 1 = some 256 ∧ decode 512 = 2 ∧ decode 256 = 1 ∧ (512 : ℕ) ≠ 256 := by
  refine ⟨?_, ?_, ?_, ?_, by decide⟩
  · unfold cellAt
    rw [acc_C_12]
    simp [Mat.set]
  · norm_num [encode, ushortCast, truncC]
    decide
  · norm_num [decode]
  · norm_num [decode]

/-- C2 (amended): the loop overwrites the cell unconditionally, so the final
value of a cell is the value of the last candidate written to it. -/
theorem C2_last_write_wins (cam : PinholeModel) (img0 img : Mat) (l1 l2 : List Point3)
    (q : Point3) (i j : ℤ) (d : ℕ)
    (h : accumulate cam img0 (l1 ++ q :: l2) = some img)
    (ht : target cam q = some (i, j, d))
    (hafter : ∀ q2 ∈ l2, ∀ r c d2, target cam q2 = some (r, c, d2) → ¬(r = i ∧ c = j)) :
    img.cell i j = d := by
  rw [accumulate_append] at h
  cases h1 : accumulate cam img0 l1 with
  | none => rw [h1] at h; exact absurd h (by simp)
  | some img1 =>
    rw [h1] at h
    have h2 : accumulate cam img1 (q :: l2) = some img := h
    rw [accumulate_cons] at h2
    cases hw : writePoint cam img1 q with
    | none => rw [hw] at h2; exact absurd h2 (by simp)
    | some img2 =>
      rw [hw] at h2
      have h3 : accumulate cam img2 l2 = some img := h2
      obtain ⟨r, c, d2, ht2, hb, rfl⟩ := writePoint_some hw
      rw [ht] at ht2
      have hr : i = r ∧ j = c ∧ d = d2 := by
        injection ht2 with ht2
        simp only [Prod.mk.injEq] at ht2
        exact ⟨ht2.1, ht2.2.1, ht2.2.2⟩
      obtain ⟨rfl, rfl, rfl⟩ := hr
      rw [accumulate_untouched h3 hafter, Mat.cell_set_same]

/-- C2 witness: the amended theorem applied to the concrete two-point run of
the counterexample, with the farther point written last. -/
theorem C2_witness : (((Mat.zeros 600 800).set 0 0 256).set 0 0 512).cell 0 0 = 512 :=
  C2_last_write_wins camC (Mat.zeros 600 800) _ [⟨0, 0, 1⟩] [] ⟨0, 0, 2⟩ 0 0 512
    acc_C_12 tgt_C_002 (by simp)

/-- C3 counterexample: the code's encoder truncates instead of rounding,
never saturates (the ushort cast of an out-of-range value is undefined),
and maps 0 to the invalid sentinel 0 rather than clamping to 1 — all three
diverging from the claimed round/saturate/clamp behaviour. -/
theorem C3_cex : encode 0 = some 0 ∧ encodeSpec 0 = 1 ∧
    encode (7/512) = some 3 ∧ encodeSpec (7/512) = 4 ∧
    encode 300 = none ∧ encodeSpec 300 = 65535 := by
  refine ⟨?_, ?_, ?_, ?_, ?_, ?_⟩
  · norm_num [encode, ushortCast, truncC]
  · norm_num [encodeSpec]
  · norm_num [encode, ushortCast, truncC]
    decide
  · norm_num [encodeSpec, round_eq]
    decide
  · norm_num [encode, ushortCast, truncC]
  · norm_num [encodeSpec, round_eq]

/-- C3 (amended): for 0 ≤ d with d·256 < 65536 the encoder returns the
floor (truncation toward zero) of d·256; in particular encode(0) = 0 and
sub-quantum depths collapse onto the invalid sentinel. -/
theorem C3_encode_truncates (d : ℚ) (h0 : 0 ≤ d) (h1 : d * 256 < 65536) :
    ∃ n, encode d = some n ∧ (n : ℚ) ≤ d * 256 ∧ d * 256 < (n : ℚ) + 1 := by
  have hnn : (0 : ℚ) ≤ d * 256 := by positivity
  have hfn : (0 : ℤ) ≤ ⌊d * 256⌋ := Int.floor_nonneg.mpr hnn
  have hcast : (((⌊d * 256⌋).toNat : ℕ) : ℚ) = ((⌊d * 256⌋ : ℤ) : ℚ) := by
    exact_mod_cast congrArg (fun z : ℤ => (z : ℚ)) (Int.toNat_of_nonneg hfn)
  refine ⟨(⌊d * 256⌋).toNat, encode_some d h0 h1, ?_, ?_⟩
  · rw [hcast]
    exact Int.floor_le _
  · rw [hcast]
    exact Int.lt_floor_add_one _

/-- C3 witness: the amended theorem applied at d = 7/512 (d·256 = 3.5,
encoded as 3). -/
theorem C3_witness : ∃ n, encode (7/512) = some n ∧
    (n : ℚ) ≤ (7/512 : ℚ) * 256 ∧ (7/512 : ℚ) * 256 < (n : ℚ) + 1 :=
  C3_encode_truncates (7/512) (by norm_num) (by norm_num)

/-- C4 counterexample: with principal point cy = 1000 the single point
(0, 0, 1) projects to column 1000 of the 600x800 canvas; the loop performs
no bounds check, so instead of silently dropping the candidate the frame's
behaviour is undefined (no output image), refuting the claim. -/
theorem C4_cex : accumulate camD (Mat.zeros 600 800) [⟨0, 0, 1⟩] = none := by
  rw [accumulate_cons, write_D_001]

/-- C4 (amended): cells are initialised to 0 and a cell no candidate targets
keeps its value 0 whenever the run is defined; but an out-of-bounds
candidate is not dropped — its write is undefined behaviour (none). -/
theorem C4_no_bounds_check (cam : PinholeModel) (l : List Point3) (img : Mat) (i j : ℤ)
    (q0 : Point3) (img0 : Mat) (r0 c0 : ℤ) (d0 : ℕ) :
    (accumulate cam (Mat.zeros 600 800) l = some img →
      (∀ q ∈ l, ∀ r c d, target cam q = some (r, c, d) → ¬(r = i ∧ c = j)) →
      img.cell i j = 0) ∧
    (target cam q0 = some (r0, c0, d0) → ¬ img0.inBounds r0 c0 →
      writePoint cam img0 q0 = none) := by
  constructor
  · intro h hno
    rw [accumulate_untouched h hno]
    rfl
  · intro ht hb
    unfold writePoint
    rw [ht]
    simp [hb]

/-- C4 witness: the amended theorem applied to a one-point run (cell (5,5)
receives no candidate and stays 0) and to the out-of-bounds candidate of
the counterexample (whose write is undefined). -/
theorem C4_witness : ((Mat.zeros 600 800).set 0 0 256).cell 5 5 = 0 ∧
    writePoint camD (Mat.zeros 600 800) ⟨0, 0, 1⟩ = none := by
  constructor
  · refine (C4_no_bounds_check camC [⟨0, 0, 1⟩] ((Mat.zeros 600 800).set 0 0 256) 5 5
      ⟨0, 0, 1⟩ (Mat.zeros 600 800) 0 0 256).1 acc_C_1 ?_
    intro q hq r c d ht
    rw [List.mem_singleton] at hq
    subst hq
    rw [tgt_C_001] at ht
    have hr : r = 0 ∧ c = 0 ∧ d = 256 := by
      injection ht with ht
      simp only [Prod.mk.injEq] at ht
      exact ⟨ht.1.symm, ht.2.1.symm, ht.2.2.symm⟩
    obtain ⟨rfl, rfl, rfl⟩ := hr
    intro hc
    exact absurd hc.1 (by decide)
  · exact (C4_no_bounds_check camD [] (Mat.zeros 600 800) 0 0
      ⟨0, 0, 1⟩ (Mat.zeros 600 800) 0 1000 256).2 tgt_D_001
      (by norm_num [Mat.inBounds, Mat.zeros])

/-- C5 counterexample: the point (0, 1, -5) — forward value non-positive on
either axis convention (x = 0 on the filtered axis, z = -5 on the camera
forward axis) — survives the code's gate although the spec's gate drops
it, refuting the claim that non-positive forward-axis points are always
excluded. -/
theorem C5_cex : rangeGate [⟨0, 1, -5⟩] = [⟨0, 1, -5⟩] ∧
    gateSpec [⟨0, 1, -5⟩] = [] ∧
    ¬(0 < (Point3.mk 0 1 (-5)).z) ∧ ¬(0 < (Point3.mk 0 1 (-5)).x) := by
  refine ⟨gate_keep_0_1_m5, gateSpec_drop_0_1_m5, by norm_num, by norm_num⟩

/-- C5 (amended): the two chained PassThrough filters are extensionally one
simultaneous x/y box predicate (inclusive bounds, no constraint on z), and
the gate output is an order-preserving subsequence of its input. -/
theorem C5_gate_is_xy_box (cloud : List Point3) :
    rangeGate cloud = xyBoxFilter cloud ∧ (rangeGate cloud).Sublist cloud := by
  constructor
  · unfold rangeGate passThrough xyBoxFilter
    rw [List.filter_filter]
    congr 1
    funext v
    rw [← Bool.decide_and]
    exact decide_eq_decide.mpr (by tauto)
  · unfold rangeGate passThrough
    exact (List.filter_sublist _).trans (List.filter_sublist _)

/-- C6 counterexample: the point (7, 26, 2) projects to u = 3.5, v = 13;
the code truncates u to 3 (round-half-away gives 4) and uses u as the ROW
index, so the value lands at cell (3, 13) while the claimed convention
(row = rounded v, column = rounded u) predicts cell (13, 4), which stays 0. -/
theorem C6_cex : roundHalfAway ((7 : ℚ)/2) = 4 ∧ roundHalfAway ((13 : ℚ)) = 13 ∧
    cellAt (writePoint camC (Mat.zeros 600 800) ⟨7, 26, 2⟩) 3 13 = some 6912 ∧
    cellAt (writePoint camC (Mat.zeros 600 800) ⟨7, 26, 2⟩) 13 4 = some 0 := by
  refine ⟨?_, ?_, ?_, ?_⟩
  · norm_num [roundHalfAway]
  · norm_num [roundHalfAway]
  · unfold cellAt
    rw [write_C_7_26_2]
    simp [Mat.set]
  · unfold cellAt
    rw [write_C_7_26_2]
    norm_num [Mat.set, Mat.zeros]

/-- C6 (amended): the projector computes u = (fx·x + Tx)/z + cx and
v = (fy·y + Ty)/z + cy; both coordinates are truncated toward zero by the
(int) casts (not rounded to nearest), and u is used as the row index, v as
the column index of the Mat write (no transposition to u = column). -/
theorem C6_trunc_row_is_u (cam : PinholeModel) (img : Mat) (v : Point3) (r c : ℤ) (d : ℕ)
    (hz : v.z ≠ 0)
    (hu : intCast32 (project3dToPixel cam v).1 = some r)
    (hv : intCast32 (project3dToPixel cam v).2 = some c)
    (hd : depthFromVec v = some d)
    (hb : img.inBounds r c) :
    writePoint cam img v = some (img.set r c d) ∧
      r = truncC (project3dToPixel cam v).1 ∧ c = truncC (project3dToPixel cam v).2 := by
  have hr : r = truncC (project3dToPixel cam v).1 := by
    unfold intCast32 at hu
    split at hu
    · injection hu with hu
      exact hu.symm
    · exact absurd hu (by simp)
  have hc : c = truncC (project3dToPixel cam v).2 := by
    unfold intCast32 at hv
    split at hv
    · injection hv with hv
      exact hv.symm
    · exact absurd hv (by simp)
  have htg : target cam v = some (r, c, d) := by
    unfold target
    rw [if_neg hz, hu, hv, hd]
  refine ⟨?_, hr, hc⟩
  unfold writePoint
  rw [htg]
  simp [hb]

/-- C6 witness: the amended theorem applied at the point (7, 26, 2) with
the unit camera: truncated coordinates (3, 13), u as the row. -/
theorem C6_witness : writePoint camC (Mat.zeros 600 800) ⟨7, 26, 2⟩ =
    some ((Mat.zeros 600 800).set 3 13 6912) ∧
    (3 : ℤ) = truncC (project3dToPixel camC ⟨7, 26, 2⟩).1 ∧
    (13 : ℤ) = truncC (project3dToPixel camC ⟨7, 26, 2⟩).2 :=
  C6_trunc_row_is_u camC (Mat.zeros 600 800) ⟨7, 26, 2⟩ 3 13 6912
    (by norm_num)
    (by norm_num [project3dToPixel, camC, intCast32, truncC])
    (by norm_num [project3dToPixel, camC, intCast32, truncC])
    depth_7_26_2
    (by norm_num [Mat.inBounds, Mat.zeros])

/-- C7 counterexample: at d = 3/1024 (inside the claimed range
(0, 65535/256]) the truncating encoder returns 0, which decodes to 0.0,
an error of 3/1024 > 1/512, refuting the claimed round-trip bound. -/
theorem C7_cex : encode (3/1024) = some 0 ∧ 0 < (3/1024 : ℚ) ∧
    (3/1024 : ℚ) ≤ 65535/256 ∧ ¬(|decode 0 - 3/1024| ≤ 1/512) := by
  refine ⟨?_, by norm_num, by norm_num, ?_⟩
  · norm_num [encode, ushortCast, truncC]
  · have h : |decode 0 - 3/1024| = 3/1024 := by
      have h0 : decode 0 - 3/1024 = -(3/1024 : ℚ) := by norm_num [decode]
      rw [h0, abs_neg, abs_of_nonneg (by norm_num)]
    rw [h]
    norm_num

/-- C7 (amended): for depths of at least one quantum (1/256 ≤ d) with
d·256 < 65536, the encoder output is nonzero and decodes into the
half-open interval (d - 1/256, d]: truncation gives a one-sided error of
up to one full quantization step, not the symmetric 1/512 bound. -/
theorem C7_roundtrip_floor (d : ℚ) (h0 : 1/256 ≤ d) (h1 : d * 256 < 65536) :
    ∃ n, encode d = some n ∧ n ≠ 0 ∧ d - 1/256 < decode n ∧ decode n ≤ d := by
  have h0' : (0 : ℚ) ≤ d := le_trans (by norm_num) h0
  have hnn : (0 : ℚ) ≤ d * 256 := by positivity
  have hfn : (0 : ℤ) ≤ ⌊d * 256⌋ := Int.floor_nonneg.mpr hnn
  have hone : (1 : ℤ) ≤ ⌊d * 256⌋ := Int.le_floor.mpr (by push_cast; linarith)
  have hne : (⌊d * 256⌋).toNat ≠ 0 := by omega
  have hcast : (((⌊d * 256⌋).toNat : ℕ) : ℚ) = ((⌊d * 256⌋ : ℤ) : ℚ) := by
    exact_mod_cast congrArg (fun z : ℤ => (z : ℚ)) (Int.toNat_of_nonneg hfn)
  have hflo : ((⌊d * 256⌋ : ℤ) : ℚ) ≤ d * 256 := Int.floor_le _
  have hfhi : d * 256 < ((⌊d * 256⌋ : ℤ) : ℚ) + 1 := Int.lt_floor_add_one _
  refine ⟨(⌊d * 256⌋).toNat, encode_some d h0' h1, hne, ?_, ?_⟩
  · unfold decode
    rw [if_neg hne, hcast]
    linarith
  · unfold decode
    rw [if_neg hne, hcast]
    linarith

/-- C7 witness: the amended theorem applied at d = 1/2 (encoded exactly as
128, decoding back to 1/2). -/
theorem C7_witness : ∃ n, encode (1/2) = some n ∧ n ≠ 0 ∧
    (1/2 : ℚ) - 1/256 < decode n ∧ decode n ≤ (1/2 : ℚ) :=
  C7_roundtrip_floor (1/2) (by norm_num) (by norm_num)

/-- C8 counterexample: with a camera declaring width 100 and height 50 the
restored pipeline still publishes a 600-row, 800-column image, refuting
the claim that the raster is sized to the intrinsics. -/
theorem C8_cex : cloud_callback_restored (TfLookup.ok idT) [] camF =
      some [Mat.zeros 600 800] ∧
    (Mat.zeros 600 800).rows ≠ camF.height ∧ (Mat.zeros 600 800).cols ≠ camF.width := by
  refine ⟨rc_nil camF, ?_, ?_⟩
  · norm_num [Mat.zeros, camF]
  · norm_num [Mat.zeros, camF]

/-- C8 (amended): every image the restored pipeline publishes has exactly
600 rows and 800 columns, the hard-coded canvas, whatever the camera
intrinsics declare. -/
theorem C8_canvas_600x800 (tf : TfLookup) (cloud : List Point3) (cam : PinholeModel)
    (imgs : List Mat) (img : Mat)
    (h : cloud_callback_restored tf cloud cam = some imgs) (hm : img ∈ imgs) :
    img.rows = 600 ∧ img.cols = 800 := by
  cases tf with
  | exn =>
    unfold cloud_callback_restored at h
    injection h with h
    subst h
    simp at hm
  | ok T =>
    have h2 : (match accumulate cam (Mat.zeros 600 800)
        (rangeGate (transformCloud T cloud)) with
      | some img0 => some [img0]
      | none => none) = some imgs := h
    cases ha : accumulate cam (Mat.zeros 600 800) (rangeGate (transformCloud T cloud)) with
    | none => rw [ha] at h2; exact absurd h2 (by simp)
    | some img0 =>
      rw [ha] at h2
      injection h2 with h2
      subst h2
      rw [List.mem_singleton] at hm
      subst hm
      have := accumulate_dims ha
      simpa [Mat.zeros] using this

/-- C8 witness: the amended theorem applied to the mismatched-intrinsics
run of the counterexample. -/
theorem C8_witness : (Mat.zeros 600 800).rows = 600 ∧ (Mat.zeros 600 800).cols = 800 :=
  C8_canvas_600x800 (TfLookup.ok idT) [] camF [Mat.zeros 600 800] (Mat.zeros 600 800)
    (rc_nil camF) (by simp)

/-- C9 counterexample: invalid intrinsics (all-zero camera) do not abort —
the restored pipeline still publishes an image; and the behind-camera point
(2, 1, -2) (z < 0) is not dropped: it passes the x/y gate, is projected
through negative z and writes pixel (9, 9), refuting the claimed error
propagation policy. -/
theorem C9_cex : cloud_callback_restored (TfLookup.ok idT) [] camZero =
      some [Mat.zeros 600 800] ∧
    camZero.fx = 0 ∧ camZero.width = 0 ∧
    firstCell (cloud_callback_restored (TfLookup.ok idT) [⟨2, 1, -2⟩] camE) 9 9 =
      some 768 ∧
    (Point3.mk 2 1 (-2)).z < 0 := by
  refine ⟨rc_nil camZero, by norm_num [camZero], by norm_num [camZero], ?_, by norm_num⟩
  unfold firstCell
  rw [rc_E]
  simp [Mat.set]

/-- C9 (amended): the only frame-level failure the restored callback
detects is the caught tf2::TransformException, which aborts the frame with
no image published; frame mismatch and intrinsics validity are never
checked, and behind-camera points are not re-validated. -/
theorem C9_tf_exception_aborts (cloud : List Point3) (cam : PinholeModel) :
    cloud_callback_restored TfLookup.exn cloud cam = some [] := rfl

/-- C10: the executed cloud_callback only prints the cloud and camera
dimensions and constructs a pinhole camera model; it publishes no depth
image and mutates no object state — the transform/project/accumulate/
publish path is absent from the executed code. -/
theorem C10_callback_no_effect (st : NodeState) (c : CloudMsg) (i : CameraInfoMsg) :
    (cloud_callback st c i).1 = st ∧
    ((cloud_callback st c i).1).published = st.published ∧
    (cloud_callback st c i).2.2 = fromCameraInfo i ∧
    (cloud_callback st c i).2.1 =
      ["Cloud: width = " ++ toString c.width ++ ", height = " ++
          toString c.height ++ "\n",
        "Camera: width = " ++ toString i.width ++ ", height = " ++
          toString i.height ++ "\n"] :=
  ⟨rfl, rfl, rfl, rfl⟩

end Lidar2Depth
